import Mathlib

/-!
# Verification of the redant command-line library

A shallow embedding, in Lean 4, of the core of the `redant` Go CLI library
(command tree resolution, option/flag-set construction with environment
overlay, required-option validation, help dispatch, middleware chaining and
structured-argument decoding), together with theorems settling the frozen
specification claims C1-C10.

Conventions of the embedding:

* The `pflag.Value` contract (`Set(string) error` mutating an owned typed
  value) is modelled by a state type `α` together with a partial update
  function `set : α → String → Option α`; `set v s = some v'` models a
  successful `Set` call leaving the value in state `v'`, and
  `set v s = none` models `Set` returning a non-nil error with the value
  unchanged (the value implementations live in `values.go`, whose concrete
  types - `StringOf`, `Int64Of`, ... - parse the raw string and leave the
  target untouched on a parse error, per their unit tests).
* `os.Getenv` is modelled by a total function `env : String → String`
  where the empty string stands for "unset or empty", exactly the
  distinction the Go code makes (`os.Getenv(name) != ""`).
* Go maps used purely as key → value lookups (`commands`, `children`) are
  modelled as association lists searched with `lookup`/`find?`.
-/

namespace Redant

/-! ## Option model (`Option` struct, `src/unnamed/part_007`)

Only the fields consulted by flag-set construction and required-option
validation are carried.  `hasValue : Bool` models whether the Go field
`Value pflag.Value` is non-nil. -/

structure OptionRec where
  flag : String
  required : Bool := false
  envs : List String := []
  default : String := ""
  hasValue : Bool := true
  deriving Repr, DecidableEq

/-! ## Environment overlay (`OptionSet.FlagSet`, `src/unnamed/part_007` lines 112-130)

The Go loop, for one option with a non-empty `Flag` and a non-nil `Value`:

    for _, envName := range opt.Envs ...
      if envValue := os.Getenv(envName); envValue != "" ...
        if err := flag.Value.Set(envValue); err == nil ...
          flag.Changed = true
          break

`envScan set env envs v` returns the final value state together with the
final `Changed` field of the flag (which `FlagSet` initialises to `false`
at registration time, line 101). -/

def envScan {α : Type} (set : α → String → Option α) (env : String → String) :
    List String → α → α × Bool
  | [], v => (v, false)
  | e :: rest, v =>
    if env e ≠ "" then
      match set v (env e) with
      | some v' => (v', true)
      | none => envScan set env rest v
    else
      envScan set env rest v

/-- Flag-set construction for a single option, as `OptionSet.FlagSet` performs
it (`src/unnamed/part_007` lines 71-133): the flag is registered with
`Changed = false` and `DefValue = opt.Default` (the default string is only
recorded in the display field `DefValue`; no `Set` call is made with it), and
then the environment overlay runs for options with a non-empty `Flag` and a
non-nil `Value`.  `v` is the state the caller-owned value holds when
`FlagSet` is invoked. -/
def flagSetOption {α : Type} (set : α → String → Option α) (env : String → String)
    (opt : OptionRec) (v : α) : α × Bool :=
  if opt.flag = "" ∨ opt.hasValue = false then (v, false)
  else envScan set env opt.envs v

/-! ### The behaviour the specification ascribes to the overlay

Modelled from the spec: "scan the list in order; the first environment
variable with a non-empty value is `Set` on the flag's value and the flag is
marked changed ...; remaining `Envs` entries are not consulted once one
hits."  A failing `Set` leaves the value unchanged, so the spec-described
scan applies `set` to the first non-empty entry (keeping the old value if
`set` errors), marks the flag changed, and stops. -/
def specEnvScan {α : Type} (set : α → String → Option α) (env : String → String) :
    List String → α → α × Bool
  | [], v => (v, false)
  | e :: rest, v =>
    if env e ≠ "" then
      match set v (env e) with
      | some v' => (v', true)
      | none => (v, true)
    else
      specEnvScan set env rest v

/-! ### A concrete integer value (modelled from the spec and the `values.go`
unit tests: `Set` on an `Int64` value parses a decimal integer and fails on
any non-numeric string, leaving the value untouched). -/

/-- Decimal digit string check. -/
def allDigits (s : String) : Bool := s.data.all (·.isDigit)

/-- Value of a decimal digit list. -/
def digitsToNat (l : List Char) : Nat :=
  l.foldl (fun acc c => acc * 10 + (c.toNat - 48)) 0

/-- Modelled from the spec: the `Int64` value contract of `values.go` (absent
from `src/`): `Set` parses an optionally signed decimal numeral and errors on
anything else. -/
def int64Set (_v : Int) (s : String) : Option Int :=
  match s.data with
  | [] => none
  | c :: rest =>
    if c = '-' then
      if rest ≠ [] ∧ rest.all (·.isDigit) then some (-(Int.ofNat (digitsToNat rest)))
      else none
    else if (c :: rest).all (·.isDigit) then some (Int.ofNat (digitsToNat (c :: rest)))
    else none

/-- Modelled from the spec: the `String` value contract of `values.go`
(absent from `src/`): `Set` always succeeds and stores the raw string. -/
def stringSet (_v : String) (s : String) : Option String := some s

/-- An environment with no variables set. -/
def emptyEnv : String → String := fun _ => ""

/-! ## Command tree (`Command` struct, `src/command.go`)

Only the fields consulted by tree resolution are carried: `Use` (whose
first space-delimited word is the command's name), `Aliases` and
`Children`. -/

/-- `strings.Split(s, sep)` for a one-character separator, on the
character list of the string (both separators the resolver uses, `" "` and
`":"`, are single characters). -/
def splitOnChar (sep : Char) : List Char → List String
  | [] => [""]
  | c :: rest =>
    let r := splitOnChar sep rest
    if c = sep then "" :: r
    else
      match r with
      | [] => [String.mk [c]]
      | h :: t => String.mk (c :: h.data) :: t

/-- `strings.HasPrefix(s, pre)`. -/
def strStarts (s pre : String) : Bool :=
  go pre.data s.data
where
  /-- Character-wise prefix test. -/
  go : List Char → List Char → Bool
    | [], _ => true
    | _ :: _, [] => false
    | p :: ps, c :: cs => p = c && go ps cs

/-- `strings.Contains(s, sub)` for a one-character `sub`. -/
def strHasChar (s : String) (c : Char) : Bool :=
  s.data.any (· = c)

inductive Cmd where
  | node (use : String) (aliases : List String) (children : List Cmd)
  deriving Repr

/-- The `Use` string. -/
def Cmd.use : Cmd → String
  | .node u _ _ => u

/-- The `Aliases` field. -/
def Cmd.aliases : Cmd → List String
  | .node _ a _ => a

/-- The `Children` field. -/
def Cmd.children : Cmd → List Cmd
  | .node _ _ cs => cs

/-- `Command.Name`: the first word of `Use`
(`strings.Split(c.Use, " ")[0]`, `src/command.go` line 128). -/
def Cmd.name (c : Cmd) : String := (splitOnChar ' ' c.use.data).headD ""

/-- The first child whose name equals the token, as both the colon-path walk
and the space-path walk of `getExecCommand` search `cmd.Children`
(`src/command.go` lines 354-361 and 374-383).  Aliases are not consulted. -/
def findChild (c : Cmd) (tok : String) : Option Cmd :=
  c.children.find? (fun ch => ch.name = tok)

/-- `Command.children()` (`src/command.go` lines 1081-1088) builds a Go map
from child name to child; a later child with the same name overwrites an
earlier one, so lookup returns the last child carrying the name. -/
def childrenLookup (c : Cmd) (tok : String) : Option Cmd :=
  c.children.reverse.find? (fun ch => ch.name = tok)

/-- `getCommands` (`src/command.go` lines 392-415): the flattened
name-to-command table keyed by colon-joined paths, here as an association
list (Go panics on a duplicate key, so on well-formed trees the keys are
distinct and list lookup agrees with map lookup). -/
def getCommands : Cmd → String → List (String × Cmd)
  | c@(.node _ _ children), parentName =>
    let name := if parentName = "" then Cmd.name c else parentName ++ ":" ++ Cmd.name c
    (name, c) :: goChildren children name
where
  /-- Concatenated recursion over the child list. -/
  goChildren : List Cmd → String → List (String × Cmd)
    | [], _ => []
    | c :: cs, name => getCommands c name ++ goChildren cs name

/-- Lookup in the flattened command table. -/
def lookupCmd (m : List (String × Cmd)) (k : String) : Option Cmd :=
  (m.find? (fun p => p.1 = k)).map (·.2)

/-- The leading tokens considered as command names: `getExecCommand` stops
scanning at the first token that starts with `-` or contains `=`
(`src/command.go` lines 321-333). -/
def eligibleTokens (args : List String) : List String :=
  args.takeWhile (fun a => !(strStarts a "-") && !(strHasChar a '='))

/-- The colon-path walk (`src/command.go` lines 351-367): match each
`:`-separated segment against the current node's children by name; any miss
aborts the whole walk. -/
def walkParts : Cmd → List String → Option Cmd
  | c, [] => some c
  | c, p :: rest =>
    match findChild c p with
    | some ch => walkParts ch rest
    | none => none

/-- The space-path walk (`src/command.go` lines 371-389): greedily extend
through consecutive tokens matching a child chain; `consumed` is the index
just past the last matching token.  Invoked as `walkChain c 0 0 args`. -/
def walkChain : Cmd → Nat → Nat → List String → Cmd × Nat
  | c, consumed, _, [] => (c, consumed)
  | c, consumed, i, a :: rest =>
    match findChild c a with
    | some ch => walkChain ch (i + 1) (i + 1) rest
    | none => (c, consumed)

/-- `getExecCommand` (`src/command.go` lines 320-390): one tree-resolution
step.  Returns the selected command and the number of leading tokens
consumed. -/
def getExecCommand (parentCmd : Cmd) (commands : List (String × Cmd))
    (args : List String) : Cmd × Nat :=
  let args := eligibleTokens args
  match args with
  | [] => (parentCmd, 0)
  | a0 :: _ =>
    match lookupCmd commands a0 with
    | some cmd => (cmd, 1)
    | none =>
      if strHasChar a0 ':' then
        match walkParts parentCmd (splitOnChar ':' a0.data) with
        | some cmd => (cmd, 1)
        | none => (parentCmd, 0)
      else
        walkChain parentCmd 0 0 args

/-! ## The tail of `Invocation.run` (`src/command.go` lines 554-753)

Everything after the final flag-parse pass: the fatal-parse-error check, the
help-flag check, required-option validation, declared-argument binding, and
dispatch to either the help renderer or the middleware-wrapped handler.

The model starts from the state the code has at line 554 and abstracts the
computations the claims quantify over:

* `flagParseErr` - the recorded `state.flagParseErr`: `none` for a nil
  error, `some h` for a non-nil error with `h = errors.Is(err, pflag.ErrHelp)`.
* `getBoolHelp` / `getBoolH` - the results of `inv.Flags.GetBool("help")`
  and `inv.Flags.GetBool("h")`; `none` models a non-nil lookup error.
* `changed` - `inv.Flags.Lookup(name).Changed`; `none` models a nil lookup.
* `argBindErr` - the result `parseAndSetArgs` would produce if invoked
  (`some msg` = error); the auto-created string args of the else-branch
  always succeed (`StringOf` never fails).
* `handlerErr` - the result of the middleware-wrapped handler if invoked.

The `Action` block of lines 623-653 is not modelled: the `Option` struct of
`src/unnamed/part_007` declares no `Action` field, so that block references
a non-existent field and no claim touches it. -/

/-- The error `Invocation.run` can return after the final parse pass. -/
inductive RunErr where
  | parseFlags
  | missingRequired (names : List String)
  | parsingArgs (msg : String)
  | unknownSubcommand (args : List String)
  | runCommand (msg : String)
  deriving Repr, DecidableEq

/-- Which terminal branch of `Invocation.run` fired: an early error return
(before middleware and handler), the help renderer, or the
middleware-wrapped handler. -/
inductive Dispatch where
  | early
  | help
  | handler
  deriving Repr, DecidableEq

/-- State of one invocation at `src/command.go` line 554. -/
structure RunCtx where
  rawArgs : Bool := false
  flagParseErr : Option Bool := none
  getBoolHelp : Option Bool := some false
  getBoolH : Option Bool := none
  changed : String → Option Bool := fun _ => none
  options : List OptionRec := []
  declaredArgs : Bool := false
  argBindErr : Option String := none
  invArgs : List String := []
  hasHandler : Bool := true
  handlerErr : Option String := none

/-- `isHelpRequested` (`src/command.go` lines 566-573): true when
`GetBool("help")` returns `(true, nil)`, otherwise when `GetBool("h")`
returns `(true, nil)`. -/
def isHelpRequested (c : RunCtx) : Bool :=
  match c.getBoolHelp with
  | some true => true
  | _ => match c.getBoolH with
         | some true => true
         | _ => false

/-- The per-option `hasValue` computation of the validation loop
(`src/command.go` lines 587-606): the flag's `Changed` bit when a flag with
that name is registered, else a non-empty `Default`, else a non-empty
`Envs` list. -/
def optHasValue (changed : String → Option Bool) (o : OptionRec) : Bool :=
  let hv := if o.flag ≠ "" then (changed o.flag).getD false else false
  let hv := hv || o.default ≠ ""
  hv || !o.envs.isEmpty

/-- The name reported for a missing option (`src/command.go` lines 608-614):
the flag name, falling back to the first env name when the flag is empty. -/
def optName (o : OptionRec) : String :=
  if o.flag = "" ∧ o.envs ≠ [] then o.envs.headD "" else o.flag

/-- The collected `missing` list of the validation loop
(`src/command.go` lines 579-617). -/
def requiredMissing (changed : String → Option Bool) (opts : List OptionRec) :
    List String :=
  opts.filterMap fun o =>
    if o.required && !optHasValue changed o then some (optName o) else none

/-- `DefaultHelpFn` (`src/help.go` lines 725-757), with template rendering
and stream flushes (which depend only on the output sink) assumed to
succeed: returns nil when no leftover arguments remain, and an
`UnknownSubcommandError` otherwise. -/
def helpResult (args : List String) : Option RunErr :=
  if args.isEmpty then none else some (.unknownSubcommand args)

/-- The tail of `Invocation.run` (`src/command.go` lines 554-753): each
early `return` site is reflected as one branch, paired with the dispatch
marker saying whether the help renderer or the handler ran. -/
def runTail (c : RunCtx) : Dispatch × Option RunErr :=
  if !c.rawArgs && (match c.flagParseErr with | some h => !h | none => false) then
    (.early, some .parseFlags)
  else
    let isHelp := isHelpRequested c
    let errHelp : Bool := c.flagParseErr == some true
    let missing := requiredMissing c.changed c.options
    if !isHelp && !errHelp && !missing.isEmpty then
      (.early, some (.missingRequired missing))
    else if c.declaredArgs && !isHelp && !errHelp && c.argBindErr.isSome then
      (.early, some (.parsingArgs (c.argBindErr.getD "")))
    else if c.getBoolHelp == some true then
      (.help, helpResult c.invArgs)
    else if !c.hasHandler || errHelp then
      (.help, helpResult c.invArgs)
    else
      match c.handlerErr with
      | some m => (.handler, some (.runCommand m))
      | none => (.handler, none)

/-! ## Middleware chaining (`src/command.go` lines 1001-1023 and 704-723)

A handler is modelled as a transformer of an observation log, and a
middleware as a handler transformer, so that the "before"/"after" event
order is observable. -/

/-- `HandlerFunc`, observed through its effect on a log. -/
def HandlerM := List String → List String

/-- `MiddlewareFunc`. -/
def Mw := HandlerM → HandlerM

/-- The inner `chain` helper (`src/command.go` lines 1003-1010). -/
def chainGo : List Mw → Mw
  | [] => fun next => next
  | m :: rest => fun next => chainGo rest (m next)

/-- `Chain` (`src/command.go` lines 1015-1023): reverses its argument list
and delegates to `chain`. -/
def Chain (ms : List Mw) : Mw := chainGo ms.reverse

/-- Middleware-chain assembly (`src/command.go` lines 704-716): walk from
the resolved command up to the root (`ancestors` is the leaf-to-root list of
each node's `Middleware`, `none` for nil), keep the non-nil entries, and
reverse so the root comes first. -/
def collectMw (ancestors : List (Option Mw)) : List Mw :=
  (ancestors.filterMap id).reverse

/-- The composed middleware applied to the handler
(`src/command.go` lines 718-723 and 745; `Chain []` is the identity, so the
empty-chain special case collapses). -/
def assembleMw (ancestors : List (Option Mw)) : Mw :=
  Chain (collectMw ancestors)

/-- A middleware that logs `name ++ "-before"` on the way in and
`name ++ "-after"` on the way out. -/
def logMw (name : String) : Mw :=
  fun next log => next (log ++ [name ++ "-before"]) ++ [name ++ "-after"]

/-- A handler that logs `"handler"`. -/
def logHandler : HandlerM := fun log => log ++ ["handler"]

/-! ## JSON argument decoding (`ParseJSONArgs`, `src/args.go` lines 195-255)

The Go code calls `json.Unmarshal` into `map[string]any` and `[]any`; the
decoded values are Go strings, `float64`s, `bool`s, `nil`, and nested
maps/slices.  The embedding models the JSON grammar fragment in which
number literals are integer numerals (the values are then exactly
representable `float64`s as long as they stay below `2^53`, which every
statement below does) and string literals contain no backslash escapes.
On this fragment the model agrees with `encoding/json` token for token;
inputs outside the fragment simply fail the model's parser, and every
general theorem below is conditioned on a successful parse. -/

inductive Json where
  | str (s : String)
  | num (n : Int)
  | bool (b : Bool)
  | null
  | arr (elems : List Json)
  | obj (members : List (String × Json))
  deriving Repr

/-- Go's `fmt.Sprintf("%g", v)` for an integer-valued `float64` `v`
(`strconv.FormatFloat(v, 'g', -1, 64)`): shortest digits; plain decimal
while the decimal exponent is below 6, otherwise scientific notation with a
two-digit exponent. -/
def goFmtG (n : Int) : String :=
  if n = 0 then "0"
  else
    let sign := if n < 0 then "-" else ""
    let d := Nat.repr n.natAbs
    let exp := d.length - 1
    if exp < 6 then sign ++ d
    else
      let s : List Char := (d.data.reverse.dropWhile (· = '0')).reverse
      let mant :=
        if s.length ≤ 1 then String.mk s
        else String.mk (s.take 1) ++ "." ++ String.mk (s.drop 1)
      let e := if exp < 10 then "0" ++ Nat.repr exp else Nat.repr exp
      sign ++ mant ++ "e+" ++ e

/-- Insert a member into a key-sorted member list (ascending byte order),
as `json.Marshal` sorts map keys. -/
def insertSorted (p : String × Json) : List (String × Json) → List (String × Json)
  | [] => [p]
  | q :: rest => if p.1 ≤ q.1 then p :: q :: rest else q :: insertSorted p rest

/-- Key-sort of object members, as `json.Marshal` emits map keys sorted. -/
def sortMembers (ms : List (String × Json)) : List (String × Json) :=
  ms.foldr insertSorted []

mutual

/-- Fuelled worker for `serialize` (the fuel only drives termination; the
wrapper supplies enough for the whole tree). -/
def serializeF : Nat → Json → String
  | 0, _ => ""
  | Nat.succ fuel, j =>
    match j with
    | .str s => "\"" ++ s ++ "\""
    | .num n => toString n
    | .bool b => cond b "true" "false"
    | .null => "null"
    | .arr es => "[" ++ serializeListF fuel es ++ "]"
    | .obj ms => "\x7b" ++ serializeMembersF fuel (sortMembers ms) ++ "\x7d"

/-- Comma-separated serialization of array elements. -/
def serializeListF : Nat → List Json → String
  | 0, _ => ""
  | Nat.succ _fuel, [] => ""
  | Nat.succ fuel, [j] => serializeF fuel j
  | Nat.succ fuel, j :: j' :: rest =>
      serializeF fuel j ++ "," ++ serializeListF fuel (j' :: rest)

/-- Comma-separated serialization of object members. -/
def serializeMembersF : Nat → List (String × Json) → String
  | 0, _ => ""
  | Nat.succ _fuel, [] => ""
  | Nat.succ fuel, [(k, v)] => "\"" ++ k ++ "\":" ++ serializeF fuel v
  | Nat.succ fuel, (k, v) :: m :: rest =>
      "\"" ++ k ++ "\":" ++ serializeF fuel v ++ "," ++
        serializeMembersF fuel (m :: rest)

end

mutual

/-- Node count of a JSON tree (an upper bound on its depth, used as
serialization fuel). -/
def jsonSize : Json → Nat
  | .str _ => 1
  | .num _ => 1
  | .bool _ => 1
  | .null => 1
  | .arr es => 1 + jsonSizeList es
  | .obj ms => 1 + jsonSizeMembers ms

/-- Summed node count of a list of JSON trees. -/
def jsonSizeList : List Json → Nat
  | [] => 0
  | j :: rest => jsonSize j + jsonSizeList rest

/-- Summed node count of an object member list. -/
def jsonSizeMembers : List (String × Json) → Nat
  | [] => 0
  | (_, v) :: rest => jsonSize v + jsonSizeMembers rest

end

/-- `json.Marshal` of a decoded `any` value (the `default` branch of the
`ParseJSONArgs` switch re-serializes nested structures): strings quoted,
integer-valued floats in plain decimal (`encoding/json` uses the `'f'`
float format in this range), object keys sorted.  `jsonSize j + 1`
strictly dominates the tree depth, so the fuel never runs out. -/
def serialize (j : Json) : String := serializeF (jsonSize j + 1) j

/-- The per-value stringification switch of `ParseJSONArgs`
(`src/args.go` lines 204-221 and 232-248): strings pass through, numbers
print in `%g` format, booleans as `true`/`false`, `nil` as the empty
string, and anything else is marshalled back to JSON. -/
def stringify : Json → String
  | .str s => s
  | .num n => goFmtG n
  | .bool b => cond b "true" "false"
  | .null => ""
  | j => serialize j

/-! ### The JSON parser fragment (modelling `json.Unmarshal`'s grammar) -/

/-- The opening brace character. -/
def lbrace : Char := Char.ofNat 123

/-- The closing brace character. -/
def rbrace : Char := Char.ofNat 125

/-- JSON insignificant whitespace. -/
def skipWs : List Char → List Char
  | c :: rest =>
    if c = ' ' ∨ c = '\t' ∨ c = '\n' ∨ c = '\r' then skipWs rest else c :: rest
  | [] => []

/-- Body of a string literal after the opening quote (no escapes in the
modelled fragment). -/
def parseStrBody : List Char → Option (String × List Char)
  | [] => none
  | c :: rest =>
    if c = '"' then some ("", rest)
    else if c = '\\' then none
    else (parseStrBody rest).map fun p => (⟨c :: p.1.data⟩, p.2)

/-- Drop an expected literal prefix. -/
def dropLit : List Char → List Char → Option (List Char)
  | [], cs => some cs
  | k :: ks, c :: cs => if c = k then dropLit ks cs else none
  | _ :: _, [] => none

/-- An integer numeral with JSON's leading-zero rule, rejecting the
fraction/exponent forms that lie outside the modelled fragment. -/
def parseNum (cs : List Char) : Option (Json × List Char) :=
  let (neg, cs') := match cs with
    | '-' :: rest => (true, rest)
    | _ => (false, cs)
  let digits := cs'.takeWhile (·.isDigit)
  let rest := cs'.dropWhile (·.isDigit)
  if digits.isEmpty then none
  else if digits.length > 1 ∧ digits.headD '0' = '0' then none
  else match rest with
    | c :: _ => if c = '.' ∨ c = 'e' ∨ c = 'E' then none
                else some (.num (if neg then -(Int.ofNat (digitsToNat digits))
                                 else Int.ofNat (digitsToNat digits)), rest)
    | [] => some (.num (if neg then -(Int.ofNat (digitsToNat digits))
                        else Int.ofNat (digitsToNat digits)), rest)

mutual

/-- One JSON value of the modelled fragment, by recursive descent with
fuel. -/
def parseVal : Nat → List Char → Option (Json × List Char)
  | 0, _ => none
  | Nat.succ fuel, cs =>
    match skipWs cs with
    | [] => none
    | c :: rest =>
      if c = '"' then
        (parseStrBody rest).map fun p => (Json.str p.1, p.2)
      else if c = lbrace then
        parseObjBody fuel rest [] true
      else if c = '[' then
        parseArrBody fuel rest [] true
      else if c = '-' ∨ c.isDigit then
        parseNum (c :: rest)
      else
        match dropLit "true".data (c :: rest) with
        | some r => some (Json.bool true, r)
        | none =>
          match dropLit "false".data (c :: rest) with
          | some r => some (Json.bool false, r)
          | none =>
            match dropLit "null".data (c :: rest) with
            | some r => some (Json.null, r)
            | none => none

/-- Array elements after `[`. -/
def parseArrBody : Nat → List Char → List Json → Bool → Option (Json × List Char)
  | 0, _, _, _ => none
  | Nat.succ fuel, cs, acc, isFirst =>
    match skipWs cs with
    | ']' :: rest =>
      if isFirst then some (Json.arr [], rest)
      else none
    | ws =>
      match parseVal fuel ws with
      | none => none
      | some (j, r) =>
        match skipWs r with
        | ']' :: r2 => some (Json.arr (acc ++ [j]), r2)
        | ',' :: r2 => parseArrBody fuel r2 (acc ++ [j]) false
        | _ => none

/-- Object members after the opening brace. -/
def parseObjBody : Nat → List Char → List (String × Json) → Bool →
    Option (Json × List Char)
  | 0, _, _, _ => none
  | Nat.succ fuel, cs, acc, isFirst =>
    match skipWs cs with
    | c :: rest =>
      if c = rbrace ∧ isFirst then some (Json.obj [], rest)
      else if c = '"' then
        match parseStrBody rest with
        | none => none
        | some (k, r) =>
          match skipWs r with
          | ':' :: r2 =>
            match parseVal fuel r2 with
            | none => none
            | some (v, r3) =>
              match skipWs r3 with
              | ',' :: r4 => parseObjBody fuel r4 (acc ++ [(k, v)]) false
              | c2 :: r4 => if c2 = rbrace then some (Json.obj (acc ++ [(k, v)]), r4) else none
              | [] => none
          | _ => none
      else none
    | [] => none

end

/-- `json.Unmarshal`'s whole-input requirement: one value, possibly
surrounded by whitespace. -/
def jsonParse (s : String) : Option Json :=
  match parseVal (2 * s.length + 4) s.data with
  | some (j, rest) => if skipWs rest = [] then some j else none
  | none => none

/-- Replace-or-append for object members, modelling assignment into the
`map[string]any` that `json.Unmarshal` fills (a duplicate key overwrites
the earlier value). -/
def setMember (ms : List (String × Json)) (k : String) (v : Json) :
    List (String × Json) :=
  if ms.any (fun p => p.1 = k) then ms.map (fun p => if p.1 = k then (k, v) else p)
  else ms ++ [(k, v)]

/-- The member list as the decoded Go map holds it: duplicate keys
collapsed, last occurrence winning. -/
def dedupKeys (ms : List (String × Json)) : List (String × Json) :=
  ms.foldl (fun acc p => setMember acc p.1 p.2) []

/-- `ParseJSONArgs` (`src/args.go` lines 195-255).  The first `Unmarshal`
into `map[string]any` succeeds exactly on objects and on the literal
`null` (which leaves the map nil, so the member loop runs zero times); the
second `Unmarshal` into `[]any` then catches arrays; anything else reports
`invalid JSON format`.  The result is the `values` map as an association
list (one entry per distinct key; Go map iteration order is not
observable as a list order, the object branch is keyed). -/
def parseJSONArgs (s : String) : Except String (List (String × List String)) :=
  match jsonParse s with
  | some (Json.obj ms) => .ok ((dedupKeys ms).map fun p => (p.1, [stringify p.2]))
  | some Json.null => .ok []
  | some (Json.arr es) => .ok (if es.isEmpty then [] else [("", es.map stringify)])
  | _ => .error "invalid JSON format"

/-! ## Concrete instances used by the claim theorems and witnesses -/

/-- The `port` option of the repository's own `TestCommandWithFlags`:
`Int64` value, `Default: "8080"`, no env names. -/
def portOpt : OptionRec := { flag := "port", default := "8080" }

/-- An environment where `E1` holds a non-numeric string and `E2` a
numeral. -/
def env3 : String → String :=
  fun s => if s = "E1" then "abc" else if s = "E2" then "42" else ""

/-- An environment where `E1` is unset and `E2` holds `"7"`. -/
def envW : String → String := fun s => if s = "E2" then "7" else ""

/-- A tree whose root is itself named `parent`: root `parent` with one
child named `parent`, which has one child named `child`. -/
def cexC : Cmd := .node "child" [] []

/-- The intermediate `parent` child of the counterexample tree. -/
def cexP : Cmd := .node "parent" [] [cexC]

/-- The root of the counterexample tree (named `parent`). -/
def cexRoot : Cmd := .node "parent" [] [cexP]

/-- Flattened lookup table of the counterexample tree:
keys `parent`, `parent:parent`, `parent:parent:child`. -/
def cexCommands : List (String × Cmd) := getCommands cexRoot ""

/-- A plain tree: root `app` → `parent` → `child`. -/
def wC : Cmd := .node "child" [] []

/-- The `parent` child of the plain tree. -/
def wP : Cmd := .node "parent" [] [wC]

/-- The root of the plain tree. -/
def wRoot : Cmd := .node "app" [] [wP]

/-- Flattened lookup table of the plain tree. -/
def wCommands : List (String × Cmd) := getCommands wRoot ""

/-- A child named `serve` carrying the alias `svc`
(the repository's `TestBusyboxArgv0Alias` shape). -/
def aServe : Cmd := .node "serve" ["svc"] []

/-- A root `app` whose only child is `serve` (alias `svc`). -/
def aRoot : Cmd := .node "app" [] [aServe]

/-- Flattened lookup table of the alias tree. -/
def aCommands : List (String × Cmd) := getCommands aRoot ""

/-- A required option with no default, no envs and no CLI value. -/
def reqOpt : OptionRec := { flag := "req", required := true }

/-- An invocation that reached line 554 with `--help` parsed `true`, one
leftover argument and one required option lacking every value source. -/
def helpCtx : RunCtx :=
  { getBoolHelp := some true, invArgs := ["leftover"], options := [reqOpt] }

/-- The same invocation shape with no leftover arguments. -/
def helpCtxNoArgs : RunCtx := { helpCtx with invArgs := [] }

/-- An invocation with a missing required option and no help request. -/
def reqCtx : RunCtx := { options := [reqOpt] }

/-! # Claim theorems -/

/-- C1: the claim says that for an Option with non-empty `Default` D and a
non-nil `Value`, flag-set construction applies D via `Set`, so that with no
CLI token and no environment value the bound value equals `Set(D)`'s
effect.  The code only records D in the display field `DefValue`
(`src/unnamed/part_007` line 100) and never calls `Set` with it: for the
repository's own `port` option (`Default "8080"`, initial bound value 0,
no envs, no CLI token) flag-set construction leaves the bound value 0 and
the flag unchanged, while `Set("8080")` would bind 8080.  The repository's
test `TestCommandWithFlags` ("default values" case) expects 8080, so the
code contradicts its own test suite. -/
theorem C1_default_not_applied :
    flagSetOption int64Set emptyEnv portOpt 0 = (0, false) ∧
    int64Set 0 "8080" = some 8080 ∧
    (flagSetOption int64Set emptyEnv portOpt 0).1 ≠ 8080 := by
  refine ⟨rfl, by decide, by decide⟩

/-- C3 counterexample: the claim says the overlay applies the first
environment variable with a non-empty value via `Set`, marks the flag
changed, and does not consult the remaining `Envs` entries.  With
`E1 = "abc"` (non-empty but unparsable for an `Int64` value) and
`E2 = "42"`, the code consults and binds `E2`, producing `(42, true)`,
while the spec-described scan stops at `E1` and produces `(0, true)`. -/
theorem C3_counterexample :
    int64Set 0 "abc" = none ∧
    envScan int64Set env3 ["E1", "E2"] 0 = (42, true) ∧
    specEnvScan int64Set env3 ["E1", "E2"] 0 = (0, true) ∧
    envScan int64Set env3 ["E1", "E2"] 0 ≠ specEnvScan int64Set env3 ["E1", "E2"] 0 := by
  refine ⟨by decide, by decide, by decide, by decide⟩

/-- C3 amended: the environment overlay scans `Envs` in order and binds the
first entry whose value is non-empty *and* whose `Set` succeeds, marking
the flag changed and not consulting the remaining entries (the result does
not depend on `es₂`); entries that are empty, or non-empty but failing
`Set`, are skipped.  In particular, when the first entry is unset and the
second holds `"X"` with `Set("X")` succeeding, the bound value equals
`Set("X")`'s effect. -/
theorem C3_amended {α : Type} (set : α → String → Option α) (env : String → String)
    (es₁ : List String) (e : String) (es₂ : List String) (v w : α)
    (h1 : ∀ x ∈ es₁, env x = "" ∨ set v (env x) = none)
    (h2 : env e ≠ "") (h3 : set v (env e) = some w) :
    envScan set env (es₁ ++ e :: es₂) v = (w, true) := by
  induction es₁ with
  | nil =>
    simp only [List.nil_append, envScan, if_pos h2, h3]
  | cons x xs ih =>
    have hx := h1 x (List.mem_cons_self x xs)
    have ih' := ih fun y hy => h1 y (List.mem_cons_of_mem _ hy)
    rw [List.cons_append]
    simp only [envScan]
    by_cases hne : env x = ""
    · rw [if_neg (by simp [hne])]
      exact ih'
    · rcases hx with hx | hx
      · exact absurd hx hne
      · rw [if_pos hne]
        simp only [hx]
        exact ih'

/-- C3 witness: with `E1` unset and `E2 = "7"`, the overlay binds 7 and
marks the flag changed, regardless of the later entry `E3`. -/
theorem C3_witness : envScan int64Set envW ["E1", "E2", "E3"] 0 = (7, true) :=
  C3_amended int64Set envW ["E1"] "E2" ["E3"] 0 7
    (by intro x hx; simp only [List.mem_singleton] at hx; subst hx; left; rfl)
    (by decide) (by decide)

/-- C10: during the environment overlay a flag is marked changed exactly
when some `Envs` entry has a non-empty value on which `Set` succeeds; a
non-empty entry whose `Set` fails is silently skipped (its error is
discarded and the scan continues with the next entry, the value left
unchanged), so a later well-formed environment variable still binds the
value. -/
theorem C10_env_set_error_skipped {α : Type} (set : α → String → Option α)
    (env : String → String) (e : String) (rest es : List String) (v : α)
    (h1 : env e ≠ "") (h2 : set v (env e) = none) :
    envScan set env (e :: rest) v = envScan set env rest v ∧
    ((envScan set env es v).2 = true ↔ ∃ x ∈ es, env x ≠ "" ∧ (set v (env x)).isSome) := by
  constructor
  · simp [envScan, h1, h2]
  · induction es with
    | nil => simp [envScan]
    | cons x xs ih =>
      by_cases hne : env x = ""
      · simp only [envScan, if_neg (by simp [hne] : ¬ env x ≠ "")]
        rw [ih]
        constructor
        · rintro ⟨y, hy, hv⟩
          exact ⟨y, List.mem_cons_of_mem _ hy, hv⟩
        · rintro ⟨y, hy, hv⟩
          rcases List.mem_cons.mp hy with rfl | hy'
          · exact absurd hne hv.1
          · exact ⟨y, hy', hv⟩
      · rcases hs : set v (env x) with _ | v'
        · simp only [envScan, if_pos hne, hs]
          rw [ih]
          constructor
          · rintro ⟨y, hy, hv⟩
            exact ⟨y, List.mem_cons_of_mem _ hy, hv⟩
          · rintro ⟨y, hy, hv⟩
            rcases List.mem_cons.mp hy with rfl | hy'
            · rw [hs] at hv
              exact absurd hv.2 (by simp)
            · exact ⟨y, hy', hv⟩
        · rw [show envScan set env (x :: xs) v = (v', true) from by
            simp [envScan, if_pos hne, hs]]
          constructor
          · intro _
            exact ⟨x, List.mem_cons_self x xs, hne, by simp [hs]⟩
          · intro _
            rfl

/-- C10 witness: with `E1 = "abc"` failing to parse and `E2 = "42"`
well-formed, the scan continues past `E1` and the changed bit is
equivalent to the existence of a usable entry. -/
theorem C10_witness :
    envScan int64Set env3 ["E1", "E2"] 0 = envScan int64Set env3 ["E2"] 0 ∧
    ((envScan int64Set env3 ["E1", "E2"] 0).2 = true ↔
      ∃ x ∈ ["E1", "E2"], env3 x ≠ "" ∧ (int64Set 0 (env3 x)).isSome) :=
  C10_env_set_error_skipped int64Set env3 "E1" ["E2"] ["E1", "E2"] 0
    (by decide) (by decide)

/-- C4 amended: during tree resolution a child command is selected only
when the eligible token equals its canonical Name; the `Aliases` of a
child are never consulted, so a plain token that is an alias of a child
(but the name of none, and no key of the flattened table) leaves the
resolver at the current command with zero tokens consumed, and the
child-descent map `children()` does not contain it either. -/
theorem C4_amended (c : Cmd) (cmds : List (String × Cmd)) (t : String)
    (h0 : strStarts t "-" = false) (h0' : strHasChar t '=' = false)
    (h1 : lookupCmd cmds t = none) (h2 : strHasChar t ':' = false)
    (h3 : ∀ ch ∈ c.children, ch.name ≠ t)
    (h4 : ∃ ch ∈ c.children, t ∈ ch.aliases) :
    getExecCommand c cmds [t] = (c, 0) ∧
    findChild c t = none ∧
    childrenLookup c t = none := by
  have hfind : findChild c t = none := by
    rw [findChild, List.find?_eq_none]
    intro ch hch
    simp [h3 ch hch]
  have hchildren : childrenLookup c t = none := by
    rw [childrenLookup, List.find?_eq_none]
    intro ch hch
    simp [h3 ch (List.mem_reverse.mp hch)]
  refine ⟨?_, hfind, hchildren⟩
  have helig : eligibleTokens [t] = [t] := by
    simp [eligibleTokens, List.takeWhile, h0, h0']
  rw [getExecCommand]
  simp only [helig, h1, h2]
  simp only [walkChain, hfind]
  exact h4.elim fun _ _ => rfl

/-- C4 counterexample: the claim says a child is also selected when the
token equals one of its `Aliases`.  In the tree `app → serve` (alias
`svc`), resolving the token `svc` selects nothing: `getExecCommand` stays
at the root with zero tokens consumed, and the descent map `children()`
has no entry for `svc`, even though `svc` is an alias of the child
`serve`. -/
theorem C4_counterexample :
    "svc" ∈ aServe.aliases ∧
    aServe ∈ aRoot.children ∧
    getExecCommand aRoot aCommands ["svc"] = (aRoot, 0) ∧
    (getExecCommand aRoot aCommands ["svc"]).1.name = "app" ∧
    childrenLookup aRoot "svc" = none := by
  refine ⟨by decide, List.mem_singleton.mpr rfl, rfl, rfl, rfl⟩

/-- C4 witness: the amended theorem applied to the `app → serve` (alias
`svc`) tree and the token `svc`. -/
theorem C4_witness :
    getExecCommand aRoot aCommands ["svc"] = (aRoot, 0) ∧
    findChild aRoot "svc" = none ∧
    childrenLookup aRoot "svc" = none :=
  C4_amended aRoot aCommands "svc" (by decide) (by decide) rfl (by decide)
    (by
      intro ch hch
      rw [List.mem_singleton.mp hch]
      decide)
    ⟨aServe, List.mem_singleton.mpr rfl, by decide⟩

/-- C2 amended: when neither `parent:child` nor `parent` is a key of the
flattened lookup table (on a well-formed tree this only fails when the
root itself is named `parent`), resolving the single token `parent:child`
and resolving the two tokens `parent`, `child` select the same command -
the `child` child of the `parent` child of the root - and leave the same
(empty) remaining argument list, so the bound argument and flag state
coincide. -/
theorem C2_amended (root P C : Cmd) (cmds : List (String × Cmd))
    (h1 : lookupCmd cmds "parent:child" = none)
    (h2 : lookupCmd cmds "parent" = none)
    (h3 : findChild root "parent" = some P)
    (h4 : findChild P "child" = some C) :
    getExecCommand root cmds ["parent:child"] = (C, 1) ∧
    getExecCommand root cmds ["parent", "child"] = (C, 2) ∧
    (["parent:child"].drop (getExecCommand root cmds ["parent:child"]).2 : List String) =
      ["parent", "child"].drop (getExecCommand root cmds ["parent", "child"]).2 := by
  have e1 : getExecCommand root cmds ["parent:child"] = (C, 1) := by
    rw [getExecCommand]
    simp only [show eligibleTokens ["parent:child"] = ["parent:child"] from rfl, h1]
    simp only [show strHasChar "parent:child" ':' = true from rfl,
      show splitOnChar ':' "parent:child".data = ["parent", "child"] from rfl]
    simp only [walkParts, h3, h4]
    simp
  have e2 : getExecCommand root cmds ["parent", "child"] = (C, 2) := by
    rw [getExecCommand]
    simp only [show eligibleTokens ["parent", "child"] = ["parent", "child"] from rfl, h2]
    simp only [show strHasChar "parent" ':' = false from rfl]
    simp only [walkChain, h3, h4]
    simp
  refine ⟨e1, e2, ?_⟩
  rw [e1, e2]
  rfl

/-- C2 counterexample: in the tree whose root is itself named `parent`
(root `parent` → child `parent` → child `child`), the single token
`parent:child` resolves through the colon walk to the grandchild `child`,
while the two tokens `parent`, `child` hit the root's own key `parent` in
the flattened table, so resolution returns the root with one token
consumed, the leftover token `child` matches none of the root's children
in the descent map, and the two resolutions select different terminal
commands. -/
theorem C2_counterexample :
    (getExecCommand cexRoot cexCommands ["parent:child"]).1.name = "child" ∧
    (getExecCommand cexRoot cexCommands ["parent", "child"]).1.name = "parent" ∧
    (getExecCommand cexRoot cexCommands ["parent", "child"]).2 = 1 ∧
    childrenLookup (getExecCommand cexRoot cexCommands ["parent", "child"]).1 "child" = none ∧
    (getExecCommand cexRoot cexCommands ["parent:child"]).1 ≠
      (getExecCommand cexRoot cexCommands ["parent", "child"]).1 := by
  refine ⟨rfl, rfl, rfl, rfl, fun h => absurd (congrArg Cmd.name h) (by decide)⟩

/-- C2 witness: the amended theorem applied to the plain tree
`app → parent → child`. -/
theorem C2_witness :
    getExecCommand wRoot wCommands ["parent:child"] = (wC, 1) ∧
    getExecCommand wRoot wCommands ["parent", "child"] = (wC, 2) ∧
    (["parent:child"].drop (getExecCommand wRoot wCommands ["parent:child"]).2 : List String) =
      ["parent", "child"].drop (getExecCommand wRoot wCommands ["parent", "child"]).2 :=
  C2_amended wRoot wP wC wCommands rfl rfl rfl rfl

/-- The collected `missing` list is exactly the names of the required
options that fail the three-source check, in declaration order. -/
theorem requiredMissing_eq_filter (changed : String → Option Bool)
    (opts : List OptionRec) :
    requiredMissing changed opts =
      (opts.filter fun o => o.required && !optHasValue changed o).map optName := by
  induction opts with
  | nil => rfl
  | cons o os ih =>
    by_cases h : (o.required && !optHasValue changed o) = true
    · simp only [requiredMissing, List.filterMap_cons, if_pos h, List.filter_cons, h,
        List.map_cons]
      exact congrArg _ ih
    · simp only [requiredMissing, List.filterMap_cons, if_neg h, List.filter_cons, h]
      exact ih

/-- C5: required-option validation accepts an option exactly when its flag
was marked changed (for a registered flag name), or its `Default` is
non-empty, or its `Envs` list is non-empty; the violations of one
invocation are collected into a single aggregated `missing values for the
required flags` error naming every missing option, and when that error is
returned the run stops at an early return - neither middleware nor handler
(nor the help renderer) runs. -/
theorem C5_required_validation (c : RunCtx)
    (hHelp : isHelpRequested c = false) (hParse : c.flagParseErr = none)
    (hMissing : requiredMissing c.changed c.options ≠ []) :
    (∀ o ∈ c.options, o.required = true →
      (optHasValue c.changed o = true ↔
        ((o.flag ≠ "" ∧ c.changed o.flag = some true) ∨ o.default ≠ "" ∨ o.envs ≠ []))) ∧
    requiredMissing c.changed c.options =
      ((c.options.filter fun o => o.required && !optHasValue c.changed o).map optName) ∧
    runTail c = (.early, some (.missingRequired (requiredMissing c.changed c.options))) := by
  refine ⟨?_, requiredMissing_eq_filter c.changed c.options, ?_⟩
  · intro o _ _
    by_cases hf : o.flag = ""
    · simp [optHasValue, hf, List.isEmpty_iff]
    · rcases hc : c.changed o.flag with _ | b
      · simp [optHasValue, hf, hc, List.isEmpty_iff]
      · cases b <;> simp [optHasValue, hf, hc, List.isEmpty_iff]
  · have hm : (requiredMissing c.changed c.options).isEmpty = false := by
      cases h : (requiredMissing c.changed c.options).isEmpty with
      | true => exact absurd (List.isEmpty_iff.mp h) hMissing
      | false => rfl
    simp [runTail, hParse, hHelp, hm]

/-- C5 witness: a required option with no flag change, no default and no
envs causes the aggregated error and an early return. -/
theorem C5_witness :
    (∀ o ∈ reqCtx.options, o.required = true →
      (optHasValue reqCtx.changed o = true ↔
        ((o.flag ≠ "" ∧ reqCtx.changed o.flag = some true) ∨ o.default ≠ "" ∨ o.envs ≠ []))) ∧
    requiredMissing reqCtx.changed reqCtx.options =
      ((reqCtx.options.filter fun o => o.required && !optHasValue reqCtx.changed o).map optName) ∧
    runTail reqCtx = (.early, some (.missingRequired (requiredMissing reqCtx.changed reqCtx.options))) :=
  C5_required_validation reqCtx rfl rfl (by decide)

/-- C6 counterexample: the claim says that with the help flag set the run
returns a nil error regardless of the remaining arguments.  With `--help`
parsed true and one leftover argument, the help renderer runs but returns
an `UnknownSubcommandError`, a non-nil error. -/
theorem C6_counterexample :
    isHelpRequested helpCtx = true ∧
    runTail helpCtx = (.help, some (.unknownSubcommand ["leftover"])) ∧
    (runTail helpCtx).2 ≠ none := by
  refine ⟨rfl, by decide, by decide⟩

/-- C6 amended: if the help flag parsed true (and the flag-parse error was
not fatal), or if the resolved command has no handler and validation and
declared-argument binding succeeded, the run dispatches to the help
renderer instead of the handler; the help renderer's result - and hence
the run's - is nil exactly when no leftover arguments remain, and an
`UnknownSubcommandError` otherwise. -/
theorem C6_amended (c : RunCtx) (hParse : c.flagParseErr = none) :
    (c.getBoolHelp = some true → runTail c = (.help, helpResult c.invArgs)) ∧
    (isHelpRequested c = false → requiredMissing c.changed c.options = [] →
      c.argBindErr = none → c.hasHandler = false →
      runTail c = (.help, helpResult c.invArgs)) ∧
    (c.invArgs = [] → helpResult c.invArgs = none) ∧
    (c.invArgs ≠ [] → helpResult c.invArgs = some (.unknownSubcommand c.invArgs)) := by
  refine ⟨?_, ?_, ?_, ?_⟩
  · intro hH
    simp [runTail, hParse, isHelpRequested, hH]
  · intro h1 h2 h3 h4
    have hne : c.getBoolHelp ≠ some true := by
      intro hEq
      simp [isHelpRequested, hEq] at h1
    simp [runTail, hParse, h1, h2, h3, h4, hne]
  · intro h
    simp [helpResult, h]
  · intro h
    simp [helpResult, h]

/-- C6 witness: the amended theorem at the concrete invocation with
`--help` true and a leftover argument. -/
theorem C6_witness :
    (helpCtx.getBoolHelp = some true → runTail helpCtx = (.help, helpResult helpCtx.invArgs)) ∧
    (isHelpRequested helpCtx = false → requiredMissing helpCtx.changed helpCtx.options = [] →
      helpCtx.argBindErr = none → helpCtx.hasHandler = false →
      runTail helpCtx = (.help, helpResult helpCtx.invArgs)) ∧
    (helpCtx.invArgs = [] → helpResult helpCtx.invArgs = none) ∧
    (helpCtx.invArgs ≠ [] → helpResult helpCtx.invArgs = some (.unknownSubcommand helpCtx.invArgs)) :=
  C6_amended helpCtx rfl

/-- C9: when the help flag parses to true, required-option validation and
declared-argument binding are skipped entirely - the outcome is the help
renderer's result whatever the options and whatever error the argument
binder would have produced - while the same invocation with the help flags
parsed false returns the aggregated missing-required-flags error; with no
leftover arguments the help outcome is a nil error. -/
theorem C9_help_skips_validation (c : RunCtx)
    (hParse : c.flagParseErr = none) (hHelp : c.getBoolHelp = some true) :
    runTail c = (.help, helpResult c.invArgs) ∧
    (requiredMissing c.changed c.options ≠ [] →
      runTail { c with getBoolHelp := some false, getBoolH := some false } =
        (.early, some (.missingRequired (requiredMissing c.changed c.options)))) ∧
    (c.invArgs = [] → runTail c = (.help, none)) := by
  have hrun : runTail c = (.help, helpResult c.invArgs) := by
    simp [runTail, hParse, isHelpRequested, hHelp]
  refine ⟨hrun, ?_, ?_⟩
  · intro hm
    have hm' : (requiredMissing c.changed c.options).isEmpty = false := by
      cases h : (requiredMissing c.changed c.options).isEmpty with
      | true => exact absurd (List.isEmpty_iff.mp h) hm
      | false => rfl
    simp [runTail, hParse, isHelpRequested, hm']
  · intro h
    rw [hrun, helpResult, if_pos (by simp [h])]

/-- C9 witness: the concrete invocation with a required option lacking all
sources: with `--help` it reaches the help renderer and returns nil; with
the help flags false it returns the missing-required error. -/
theorem C9_witness :
    runTail helpCtxNoArgs = (.help, helpResult helpCtxNoArgs.invArgs) ∧
    (requiredMissing helpCtxNoArgs.changed helpCtxNoArgs.options ≠ [] →
      runTail { helpCtxNoArgs with getBoolHelp := some false, getBoolH := some false } =
        (.early, some (.missingRequired (requiredMissing helpCtxNoArgs.changed helpCtxNoArgs.options)))) ∧
    (helpCtxNoArgs.invArgs = [] → runTail helpCtxNoArgs = (.help, none)) :=
  C9_help_skips_validation helpCtxNoArgs rfl rfl

/-- C7: middleware assembly collects each ancestor's single non-nil
`Middleware` from the resolved command up to the root and reverses the
list so the root comes first; `Chain` composes the list so that the first
middleware is outermost (`Chain ms` folds `ms` from the right onto the
handler), and for `Chain(mw1, mw2)` around a logging handler the observed
event order is exactly
`[mw1-before, mw2-before, handler, mw2-after, mw1-after]`; the same order
arises from a tree whose leaf carries `mw2` and whose root carries `mw1`. -/
theorem C7_middleware_order :
    (∀ m1 m2 : Mw, collectMw [some m1, none, some m2] = [m2, m1]) ∧
    (∀ (ms : List Mw) (next : HandlerM),
      Chain ms next = ms.foldr (fun m acc => m acc) next) ∧
    Chain [logMw "mw1", logMw "mw2"] logHandler [] =
      ["mw1-before", "mw2-before", "handler", "mw2-after", "mw1-after"] ∧
    assembleMw [some (logMw "mw2"), none, some (logMw "mw1")] logHandler [] =
      ["mw1-before", "mw2-before", "handler", "mw2-after", "mw1-after"] := by
  refine ⟨fun m1 m2 => rfl, ?_, rfl, rfl⟩
  intro ms next
  have go : ∀ (l : List Mw) (nx : HandlerM),
      chainGo l nx = l.foldl (fun acc m => m acc) nx := by
    intro l
    induction l with
    | nil => intro nx; rfl
    | cons m rest ih => intro nx; simp [chainGo, ih]
  rw [Chain, go, List.foldl_reverse]

/-- C8 counterexample: the claim says any token that is neither a JSON
object nor a JSON array fails with an error.  The token `null` is neither,
yet `ParseJSONArgs("null")` succeeds with an empty map and a nil error,
because `json.Unmarshal` of the literal `null` into a `map[string]any`
succeeds as a no-op. -/
theorem C8_counterexample :
    jsonParse "null" = some Json.null ∧
    parseJSONArgs "null" = .ok [] := by
  refine ⟨rfl, rfl⟩

/-- C8 amended: `ParseJSONArgs` maps a JSON object token to one
single-entry value list per member name - strings passed through, numbers
in `%g` general float format, booleans as `true`/`false`, null as the
empty string, nested structures re-serialized to JSON - and maps a JSON
array to the empty-string key preserving element order; on the two
specification examples it returns exactly the stated maps; scalar tokens
(number, string, boolean) fail with the `invalid JSON format` error, and
the JSON literal `null` is the one non-object, non-array token that
instead succeeds with an empty map. -/
theorem C8_amended :
    parseJSONArgs "\x7b\"id\":123,\"title\":\"Test\"\x7d" =
      .ok [("id", ["123"]), ("title", ["Test"])] ∧
    parseJSONArgs "[\"v1\",\"v2\"]" = .ok [("", ["v1", "v2"])] ∧
    (∀ s ms, jsonParse s = some (Json.obj ms) →
      parseJSONArgs s = .ok ((dedupKeys ms).map fun p => (p.1, [stringify p.2]))) ∧
    (∀ s es, jsonParse s = some (Json.arr es) → es ≠ [] →
      parseJSONArgs s = .ok [("", es.map stringify)]) ∧
    parseJSONArgs "123" = .error "invalid JSON format" ∧
    parseJSONArgs "\"v\"" = .error "invalid JSON format" ∧
    parseJSONArgs "true" = .error "invalid JSON format" ∧
    (∀ s, stringify (Json.str s) = s) ∧
    (∀ n, stringify (Json.num n) = goFmtG n) ∧
    stringify (Json.bool true) = "true" ∧
    stringify (Json.bool false) = "false" ∧
    stringify Json.null = "" ∧
    (∀ es, stringify (Json.arr es) = serialize (Json.arr es)) ∧
    (∀ ms, stringify (Json.obj ms) = serialize (Json.obj ms)) := by
  refine ⟨rfl, rfl, ?_, ?_, rfl, rfl, rfl, fun s => rfl, fun n => rfl, rfl, rfl, rfl,
    fun es => rfl, fun ms => rfl⟩
  · intro s ms h
    simp [parseJSONArgs, h]
  · intro s es h hne
    have he : es.isEmpty = false := by
      cases hh : es.isEmpty with
      | true => exact absurd (List.isEmpty_iff.mp hh) hne
      | false => rfl
    simp [parseJSONArgs, h, he]

end Redant
